import Mathlib

set_option maxHeartbeats 1000000
set_option maxRecDepth 8000

/-!
Verification of the apiveritas comparison engine: a shallow embedding of the
structural differ (src/core/comparators/BasicComparator.ts), the schema
strictifier (SchemaStrictifier.ts), the validator error rendering
(src/core/schema/SchemaValidator.ts) and the comparison orchestrator
(PayloadComparer.ts), together with proofs of the specified properties.
-/

/-- JSON values as parsed by the orchestrator. Numbers are modelled as integers:
only equality and the JS typeof of a number matter to the comparison engine, and
the specified behaviours exercise integral payloads. -/
inductive Json where
  | null
  | bool (b : Bool)
  | num (n : Int)
  | str (s : String)
  | arr (items : List Json)
  | obj (fields : List (String × Json))
  deriving Repr, Inhabited

/-- JS typeof of a parsed JSON value: objects, arrays and null are all "object". -/
def jsTypeof : Json → String
  | .null => "object"
  | .bool _ => "boolean"
  | .num _ => "number"
  | .str _ => "string"
  | .arr _ => "object"
  | .obj _ => "object"

/-- The guard `typeof v === 'object' && v !== null` used by the comparator. -/
def isNonNullObject : Json → Bool
  | .arr _ => true
  | .obj _ => true
  | _ => false

/-- A key as enumerated by the JS for-in loop over the old value: a field name
for objects, a numeric index for arrays (JS exposes it as its decimal string). -/
inductive JsKey where
  | field (name : String)
  | index (i : Nat)
  deriving Repr

/-- JS strict equality on the values that reach the comparator's primitive branch
(the branch runs only when the old value is not a non-null object, so two plain
objects are never tested here; null against an object is unequal, as in JS). -/
def jsStrictEq : Json → Json → Bool
  | .null, .null => true
  | .bool a, .bool b => a == b
  | .num a, .num b => a == b
  | .str a, .str b => a == b
  | _, _ => false

/-- The string form of a key, as it appears in paths and messages. -/
def keyStr : JsKey → String
  | .field n => n
  | .index i => toString i

/-- Canonical array-index strings: a JS array property read by string name hits an
element exactly when the name is the canonical decimal form of an index. -/
def parseIndex (s : String) : Option Nat :=
  if s.data ≠ [] ∧ s.data.all (·.isDigit) ∧ (s = "0" ∨ s.data.head? ≠ some '0') then
    some (s.data.foldl (fun acc c => acc * 10 + (c.toNat - 48)) 0)
  else none

/-- JS property read (and equally the `key in v` membership test, which agrees with
the read on JSON data, where no property ever holds undefined). -/
def jsGetK : Json → JsKey → Option Json
  | .obj fs, k => (fs.find? (fun q => q.1 == keyStr k)).map (·.2)
  | .arr xs, .index i => xs[i]?
  | .arr xs, .field n =>
    match parseIndex n with
    | some i => xs[i]?
    | none => none
  | _, _ => none

mutual
/-- JS string coercion of a value, as produced by the template literals in the
comparator's messages: objects print as [object Object], arrays join their
elements with commas, a null element printing as the empty string. -/
def jsToDisplay : Json → String
  | .null => "null"
  | .bool b => if b then "true" else "false"
  | .num n => toString n
  | .str s => s
  | .obj _ => "[object Object]"
  | .arr xs => jsDisplayList xs
termination_by j => (sizeOf j, 0)

/-- Comma-joined element display of a JS array. -/
def jsDisplayList : List Json → String
  | [] => ""
  | [v] => jsDisplayElem v
  | v :: rest => jsDisplayElem v ++ "," ++ jsDisplayList rest
termination_by l => (sizeOf l, 0)

/-- Display of one array element: null prints as the empty string. -/
def jsDisplayElem : Json → String
  | .null => ""
  | v => jsToDisplay v
termination_by j => (sizeOf j, 1)
end

/-- JSON string escaping (quotes, backslashes and common control characters),
matching JSON.stringify on the payloads the specified behaviours exercise. -/
def escapeJson (s : String) : String :=
  s.data.foldl (fun acc c =>
    if c = '"' then acc ++ "\\\""
    else if c = '\\' then acc ++ "\\\\"
    else if c = '\n' then acc ++ "\\n"
    else if c = '\t' then acc ++ "\\t"
    else if c = '\r' then acc ++ "\\r"
    else acc.push c) ""

mutual
/-- JS JSON.stringify, as used in the comparator's root error messages. -/
def jsonStringify : Json → String
  | .null => "null"
  | .bool b => if b then "true" else "false"
  | .num n => toString n
  | .str s => "\"" ++ escapeJson s ++ "\""
  | .arr xs => "[" ++ stringifyList xs ++ "]"
  | .obj fs => "\x7b" ++ stringifyFields fs ++ "\x7d"
termination_by j => (sizeOf j, 0)

/-- Element list of a stringified array. -/
def stringifyList : List Json → String
  | [] => ""
  | [v] => jsonStringify v
  | v :: rest => jsonStringify v ++ "," ++ stringifyList rest
termination_by l => (sizeOf l, 1)

/-- Field list of a stringified object. -/
def stringifyFields : List (String × Json) → String
  | [] => ""
  | [(k, v)] => "\"" ++ escapeJson k ++ "\":" ++ jsonStringify v
  | (k, v) :: rest =>
    "\"" ++ escapeJson k ++ "\":" ++ jsonStringify v ++ "," ++ stringifyFields rest
termination_by l => (sizeOf l, 1)
end

/-- JS String.prototype.startsWith, character-exact. -/
def strStartsWith (s pre : String) : Bool := pre.data.isPrefixOf s.data

/-- JS String.prototype.endsWith. -/
def strEndsWith (s suf : String) : Bool := suf.data.isSuffixOf s.data

namespace BasicComparator

/-- BasicComparator.formatPath: the empty path prints as the root symbol. -/
def formatPath (path : String) : String :=
  if path = "" then "#" else path

/-- Message of the guard rejecting a non-object old value. -/
def oldNotObjectMsg (j : Json) (path : String) : String :=
  "X Old data is not a valid object at " ++ formatPath path ++ ". Got: " ++ jsonStringify j

/-- Message of the guard rejecting a non-object new value. -/
def newNotObjectMsg (j : Json) (path : String) : String :=
  "X New data is not a valid object at " ++ formatPath path ++ ". Got: " ++ jsonStringify j

mutual
/-- BasicComparator.compare (src/core/comparators/BasicComparator.ts): recursive
diff of two parsed JSON values, driven by the keys of the old value. strictValues
decides whether a value mismatch is blocking or flagged with the IGNORED prefix. -/
def compare (strictValues : Bool) (oldData newData : Json) (pathPrefix : String) :
    List String :=
  match oldData with
  | .obj fs =>
    if isNonNullObject newData then
      compareFields strictValues fs newData pathPrefix
    else [newNotObjectMsg newData pathPrefix]
  | .arr xs =>
    if isNonNullObject newData then
      compareItems strictValues xs 0 newData pathPrefix
    else [newNotObjectMsg newData pathPrefix]
  | other => [oldNotObjectMsg other pathPrefix]
termination_by (sizeOf oldData, 0)

/-- For-in iteration of compare over an old object's fields. -/
def compareFields (strictValues : Bool) (fs : List (String × Json)) (newData : Json)
    (pathPrefix : String) : List String :=
  match fs with
  | [] => []
  | (k, v) :: rest =>
    compareEntry strictValues (.field k) v newData pathPrefix ++
      compareFields strictValues rest newData pathPrefix
termination_by (sizeOf fs, 1)

/-- For-in iteration of compare over an old array's index-keyed elements. -/
def compareItems (strictValues : Bool) (xs : List Json) (i : Nat) (newData : Json)
    (pathPrefix : String) : List String :=
  match xs with
  | [] => []
  | v :: rest =>
    compareEntry strictValues (.index i) v newData pathPrefix ++
      compareItems strictValues rest (i + 1) newData pathPrefix
termination_by (sizeOf xs, 1)

/-- Body of the for-in loop of compare for one key of the old value: missing key,
type mismatch, recursion into objects, or primitive value comparison. -/
def compareEntry (strictValues : Bool) (key : JsKey) (v : Json) (newData : Json)
    (pathPrefix : String) : List String :=
  let fullPath := if pathPrefix = "" then keyStr key else pathPrefix ++ "." ++ keyStr key
  match jsGetK newData key with
  | none => ["Missing key in new data: " ++ fullPath]
  | some w =>
    if jsTypeof v ≠ jsTypeof w then
      ["Type mismatch at " ++ fullPath ++ ": expected " ++ jsTypeof v ++ ", got " ++ jsTypeof w]
    else if isNonNullObject v then
      compare strictValues v w fullPath
    else if jsStrictEq v w then []
    else if strictValues then
      ["X Value mismatch at " ++ fullPath ++ ": \"" ++ jsToDisplay v ++ "\" vs \"" ++
        jsToDisplay w ++ "\""]
    else
      ["IGNORED:: ! Value mismatch at " ++ fullPath ++ ": \"" ++ jsToDisplay v ++ "\" vs \"" ++
        jsToDisplay w ++ "\""]
termination_by (sizeOf v, 2)
end

end BasicComparator

example : BasicComparator.compare true (.obj [("a", .num 1)]) (.obj [("a", .num 2)]) "" =
    ["X Value mismatch at a: \"1\" vs \"2\""] := by
  simp [BasicComparator.compare, BasicComparator.compareFields, BasicComparator.compareEntry,
    jsGetK, keyStr, jsTypeof, isNonNullObject, jsToDisplay, jsStrictEq]
  rfl

/-- Field lookup on a JSON object's field list (JS property read by name). -/
def getFieldList (fs : List (String × Json)) (k : String) : Option Json :=
  (fs.find? (fun q => q.1 == k)).map (·.2)

/-- Field lookup on a JSON value; non-objects have no fields. -/
def getField : Json → String → Option Json
  | .obj fs, k => getFieldList fs k
  | _, _ => none

/-- JS property assignment on a field list: replaces the value in place when the
key exists, otherwise appends the key at the end. -/
def setFieldList : List (String × Json) → String → Json → List (String × Json)
  | [], k, v => [(k, v)]
  | (k2, v2) :: rest, k, v =>
    if k2 == k then (k2, v) :: rest else (k2, v2) :: setFieldList rest k v

/-- JS property assignment on a JSON value; a no-op on non-objects. -/
def setField : Json → String → Json → Json
  | .obj fs, k, v => .obj (setFieldList fs k v)
  | j, _, _ => j

/-- The test `schema.type === 'object'` of the strictifier. -/
def typeIsObject (fs : List (String × Json)) : Bool :=
  match getFieldList fs "type" with
  | some (.str t) => t == "object"
  | _ => false

namespace SchemaStrictifier

mutual
/-- SchemaStrictifier.enforceNoAdditionalProperties: walks the whole schema tree
and sets additionalProperties to false on every node whose type is the string
"object". The source mutates in place before recursing over all keys (the freshly
written boolean included, a no-op); this embedding recurses over the original
values and then writes the flag, which produces the same tree. -/
def enforceNoAdditionalProperties : Json → Json
  | .arr xs => .arr (enforceList xs)
  | .obj fs =>
    if typeIsObject fs then
      .obj (setFieldList (enforceFields fs) "additionalProperties" (.bool false))
    else
      .obj (enforceFields fs)
  | j => j
termination_by j => (sizeOf j, 0)

/-- Recursion of the strictifier over an object's field values. -/
def enforceFields : List (String × Json) → List (String × Json)
  | [] => []
  | (k, v) :: rest => (k, enforceNoAdditionalProperties v) :: enforceFields rest
termination_by l => (sizeOf l, 1)

/-- Recursion of the strictifier over an array's elements. -/
def enforceList : List Json → List Json
  | [] => []
  | v :: rest => enforceNoAdditionalProperties v :: enforceList rest
termination_by l => (sizeOf l, 1)
end

end SchemaStrictifier

mutual
/-- Modelled from the spec: the Schema Inferencer (the generate-schema npm package's
json generator, spec section 4.2) is an external dependency, not repository code.
Per the spec it is a deterministic black box that derives a draft-07-compatible
schema describing the sample's shape and represents every key present in the
sample as a schema property. This model emits a type/properties object schema for
objects, a type/items schema (one subschema per element) for arrays, and a plain
type word for scalars. -/
def inferSchema : Json → Json
  | .obj fs => .obj [("type", .str "object"), ("properties", .obj (inferFields fs))]
  | .arr xs => .obj [("type", .str "array"), ("items", .arr (inferList xs))]
  | .num _ => .obj [("type", .str "number")]
  | .str _ => .obj [("type", .str "string")]
  | .bool _ => .obj [("type", .str "boolean")]
  | .null => .obj [("type", .str "null")]
termination_by j => (sizeOf j, 0)

/-- Property schemas inferred for an object's fields. -/
def inferFields : List (String × Json) → List (String × Json)
  | [] => []
  | (k, v) :: rest => (k, inferSchema v) :: inferFields rest
termination_by l => (sizeOf l, 1)

/-- Element schemas inferred for an array. -/
def inferList : List Json → List Json
  | [] => []
  | v :: rest => inferSchema v :: inferList rest
termination_by l => (sizeOf l, 1)
end

/-- One Ajv ErrorObject, restricted to the parts SchemaValidator.getErrors reads. -/
structure AjvError where
  instancePath : String
  keyword : String
  message : String
  additionalProperty : Option String
  deriving Repr, DecidableEq

/-- JSON-Schema primitive type word of a data value. -/
def schemaTypeName : Json → String
  | .null => "null"
  | .bool _ => "boolean"
  | .num _ => "number"
  | .str _ => "string"
  | .arr _ => "array"
  | .obj _ => "object"

/-- A successful property read always yields a structurally smaller value. -/
theorem sizeOf_lt_of_jsGetK {data v : Json} {k : JsKey} (h : jsGetK data k = some v) :
    sizeOf v < sizeOf data := by
  match data, k with
  | .obj fs, k =>
    simp only [jsGetK, Option.map_eq_some'] at h
    obtain ⟨q, hq, hv⟩ := h
    have hmem := List.mem_of_find?_eq_some hq
    have hlt := List.sizeOf_lt_of_mem hmem
    cases q with
    | mk k2 v2 =>
      simp only at hv
      subst hv
      simp only [Prod.mk.sizeOf_spec] at hlt
      simp only [Json.obj.sizeOf_spec]
      omega
  | .arr xs, .index i =>
    simp only [jsGetK] at h
    rw [List.getElem?_eq_some_iff] at h
    obtain ⟨hi, hv⟩ := h
    have hmem : v ∈ xs := hv ▸ List.getElem_mem hi
    have hlt := List.sizeOf_lt_of_mem hmem
    simp only [Json.arr.sizeOf_spec]
    omega
  | .arr xs, .field n =>
    simp only [jsGetK] at h
    match hp : parseIndex n with
    | some i =>
      rw [hp] at h
      rw [List.getElem?_eq_some_iff] at h
      obtain ⟨hi, hv⟩ := h
      have hmem : v ∈ xs := hv ▸ List.getElem_mem hi
      have hlt := List.sizeOf_lt_of_mem hmem
      simp only [Json.arr.sizeOf_spec]
      omega
    | none => rw [hp] at h; simp at h
  | .null, k => simp [jsGetK] at h
  | .bool b, k => simp [jsGetK] at h
  | .num n, k => simp [jsGetK] at h
  | .str s, k => simp [jsGetK] at h

namespace SchemaValidator

/-- An Ajv type-keyword violation. -/
def mkTypeError (path t : String) : AjvError :=
  { instancePath := path, keyword := "type", message := "must be " ++ t,
    additionalProperty := none }

mutual
/-- Modelled from the spec: the Ajv validator (spec section 4.4) is an external
dependency, not repository code. The model validates data against the schema
subset the inferencer and strictifier produce — the type keyword, properties,
tuple-form items, and additionalProperties set to false — collecting every
violation in one pass (allErrors mode) with its JSON-pointer instance path, and
recording the offending property name of an additionalProperties violation. -/
def validate (schema data : Json) (path : String) : List AjvError :=
  match getField schema "type" with
  | some (.str "object") =>
    match data with
    | .obj dfs =>
      let props :=
        match getField schema "properties" with
        | some (.obj ps) => ps
        | _ => []
      let propErrs := validateProps props (.obj dfs) path
      let addlErrs :=
        match getField schema "additionalProperties" with
        | some (.bool false) =>
          (dfs.filter (fun d => !(props.any (fun q => q.1 == d.1)))).map (fun d =>
            { instancePath := path, keyword := "additionalProperties",
              message := "must NOT have additional properties",
              additionalProperty := some d.1 })
        | _ => []
      propErrs ++ addlErrs
    | _ => [mkTypeError path "object"]
  | some (.str "array") =>
    match data with
    | .arr xs =>
      match getField schema "items" with
      | some (.arr schemas) => validateTuple schemas xs 0 path
      | _ => []
    | _ => [mkTypeError path "array"]
  | some (.str t) => if schemaTypeName data == t then [] else [mkTypeError path t]
  | _ => []
termination_by (sizeOf data, 1, 0)

/-- Validation of the declared properties that are present in the data. -/
def validateProps (props : List (String × Json)) (data : Json) (path : String) :
    List AjvError :=
  match props with
  | [] => []
  | (k, sub) :: rest =>
    (match h : jsGetK data (.field k) with
     | some dv =>
       have hd : sizeOf dv < sizeOf data := sizeOf_lt_of_jsGetK h
       validate sub dv (path ++ "/" ++ k)
     | none => []) ++ validateProps rest data path
termination_by (sizeOf data, 0, sizeOf props)

/-- Tuple-form items validation: element i against subschema i. -/
def validateTuple (schemas xs : List Json) (i : Nat) (path : String) : List AjvError :=
  match schemas, xs with
  | sub :: subs, dv :: dvs =>
    validate sub dv (path ++ "/" ++ toString i) ++ validateTuple subs dvs (i + 1) path
  | _, _ => []
termination_by (sizeOf xs, 0, sizeOf schemas)
end

/-- SchemaValidator.getErrors (src/core/schema/SchemaValidator.ts): renders the
last validation's Ajv errors; an additionalProperties violation with a (truthy)
property name reports that property explicitly. -/
def getErrors (errs : List AjvError) : List String :=
  errs.map fun e =>
    let instancePath := if e.instancePath = "" then "#" else e.instancePath
    match e.additionalProperty with
    | some p =>
      if e.keyword = "additionalProperties" ∧ p ≠ "" then
        "Unexpected property \"" ++ p ++ "\" at " ++ instancePath ++
          ". Schema does not allow additional properties."
      else "Schema validation error at " ++ instancePath ++ ": " ++ e.message
    | none => "Schema validation error at " ++ instancePath ++ ": " ++ e.message

end SchemaValidator

namespace PayloadComparer

/-- IComparerOptions: the three strictness switches of the comparison run. -/
structure ComparerOptions where
  strictSchema : Bool
  strictValues : Bool
  tolerateEmptyResponses : Bool
  deriving Repr

/-- IFileComparisonResult: one record per compared file. A payload of none is the
Empty sentinel produced by loadAndParseJson (and, in newContent of a missing
file, stands for the record's absent field). -/
structure FileComparisonResult where
  fileName : String
  matched : Bool
  differences : List String
  oldContent : Option Json
  newContent : Option Json
  deriving Repr

/-- The main branch of PayloadComparer.compareFolders for one file whose two
payloads are both non-Empty: structural diff, split of the IGNORED findings,
schema inference on the old payload, optional strictification, draft-07 tagging,
validation of the new payload, and the merge into one FileComparisonResult. -/
def compareLoaded (opts : ComparerOptions) (file : String) (oldData newData : Json) :
    FileComparisonResult :=
  let structuralDiffs := BasicComparator.compare opts.strictValues oldData newData ""
  let ignoredDiffs := structuralDiffs.filter (fun d => strStartsWith d "IGNORED::")
  let realDiffs := structuralDiffs.filter (fun d => !(strStartsWith d "IGNORED::"))
  let schema0 := inferSchema oldData
  let schema1 :=
    if opts.strictSchema then SchemaStrictifier.enforceNoAdditionalProperties schema0
    else schema0
  let schema := setField schema1 "$schema" (.str "http://json-schema.org/draft-07/schema#")
  let schemaErrors := SchemaValidator.getErrors (SchemaValidator.validate schema newData "")
  let actualDiffs := realDiffs ++ schemaErrors
  let matched := actualDiffs.isEmpty
  { fileName := file, matched := matched, differences := actualDiffs ++ ignoredDiffs,
    oldContent := some oldData, newContent := some newData }

/-- One iteration of the per-file loop of compareFolders: missing counterpart
file, Empty-payload handling under tolerateEmptyResponses, or the comparison of
two loaded payloads. A newEntry of none means the file does not exist in the new
folder at all. -/
def compareFile (opts : ComparerOptions) (file : String) (oldData : Option Json)
    (newEntry : Option (Option Json)) : FileComparisonResult :=
  match newEntry with
  | none =>
    { fileName := file, matched := false,
      differences := ["X File missing in new version"],
      oldContent := oldData, newContent := none }
  | some newData =>
    match oldData, newData with
    | some o, some n => compareLoaded opts file o n
    | _, _ =>
      if opts.tolerateEmptyResponses then
        { fileName := file, matched := true,
          differences := ["! One or both payloads in " ++ file ++
            " are empty or missing. Ignored due to tolerateEmptyResponses=true."],
          oldContent := oldData, newContent := newData }
      else
        { fileName := file, matched := false,
          differences :=
            (if oldData.isNone then
              ["X Old data is not a valid object. Got empty or missing."] else []) ++
            (if newData.isNone then
              ["X New data is not a valid object. Got empty or missing."] else []),
          oldContent := oldData, newContent := newData }

/-- Run summary counters of compareFolders. -/
structure RunStats where
  matchedCount : Nat
  diffCount : Nat
  totalFiles : Nat
  anyDifferences : Bool
  deriving Repr, DecidableEq

/-- Lookup of a file by name in a snapshot folder, which is modelled as a listing
of file names with their loaded payloads (the output of loadAndParseJson; none is
the Empty sentinel). -/
def lookupFile (folder : List (String × Option Json)) (name : String) :
    Option (Option Json) :=
  (folder.find? (fun q => q.1 == name)).map (·.2)

/-- PayloadComparer.compareFolders: iterates the json files listed by the old
(baseline) folder, produces one FileComparisonResult for each, and folds the
matched and differing counts into the run summary. The source logs the results
and renders an HTML report from the same data; the result list and counters are
its observable comparison outcome. -/
def compareFolders (opts : ComparerOptions)
    (oldFolder newFolder : List (String × Option Json)) :
    List FileComparisonResult × RunStats :=
  let files := oldFolder.filter (fun q => strEndsWith q.1 ".json")
  let results := files.map (fun q => compareFile opts q.1 q.2 (lookupFile newFolder q.1))
  let matchedCount := (results.filter (fun r => r.matched)).length
  let diffCount := (results.filter (fun r => !r.matched)).length
  (results,
   { matchedCount := matchedCount, diffCount := diffCount, totalFiles := files.length,
     anyDifferences := results.any (fun r => !r.matched) })

/-- PayloadComparer.getLatestTwoPayloadFolders: sorts the snapshot directory
names ascending (the JS default string sort), reverses to descending, and returns
the pair (previous, latest) taken from positions 1 and 0; fewer than two
directories yield null instead of a pair. -/
def getLatestTwoPayloadFolders (folders0 : List String) : Option (String × String) :=
  let folders := (List.insertionSort (fun a b => a ≤ b) folders0).reverse
  if folders.length < 2 then none
  else some (folders[1]!, folders[0]!)

/-- JS whitespace recognised by String.prototype.trim (the common subset). -/
def isJsSpace (c : Char) : Bool :=
  c = ' ' ∨ c = '\t' ∨ c = '\n' ∨ c = '\r' ∨ c = '\x0b' ∨ c = '\x0c'

/-- JS String.prototype.trim. -/
def jsTrim (s : String) : String :=
  String.mk (((s.data.dropWhile isJsSpace).reverse.dropWhile isJsSpace).reverse)

/-- PayloadComparer.loadAndParseJson: trims the file's text; empty text, a literal
two-quote string and the literal null normalize to the Empty sentinel (none);
any other text goes to the JS JSON.parse builtin (the parse parameter — a browser
builtin, external to the repository), whose failure is caught, logged as a warning
(the second component) and converted to the Empty sentinel, never rethrown. -/
def loadAndParseJson (parse : String → Except String Json) (filePath content : String) :
    Option Json × List String :=
  let raw := jsTrim content
  if raw = "" ∨ raw = "\"\"" ∨ raw = "null" then (none, [])
  else
    match parse raw with
    | .ok v => (some v, [])
    | .error msg => (none, ["! Failed to parse JSON at " ++ filePath ++ ": " ++ msg])

end PayloadComparer

mutual
/-- Payload well-formedness guaranteed by JSON.parse: every object in the tree
carries duplicate-free keys (a JS object cannot hold two properties of one name). -/
def WFj : Json → Bool
  | .obj fs => decide ((fs.map Prod.fst).Nodup) && WFfields fs
  | .arr xs => WFitems xs
  | _ => true
termination_by j => (sizeOf j, 0)

/-- Well-formedness of an object's field values. -/
def WFfields : List (String × Json) → Bool
  | [] => true
  | (_, v) :: rest => WFj v && WFfields rest
termination_by l => (sizeOf l, 1)

/-- Well-formedness of an array's elements. -/
def WFitems : List Json → Bool
  | [] => true
  | v :: rest => WFj v && WFitems rest
termination_by l => (sizeOf l, 1)
end

/-- A string whose first character differs from the capital I of the IGNORED
prefix does not carry the informational marker. -/
theorem strStartsWith_ignored_false_of_head {s : String} (c : Char) (t : List Char)
    (h : s.data = c :: t) (hne : (c == 'I') = false) :
    strStartsWith s "IGNORED::" = false := by
  have hic : ('I' == c) = false :=
    beq_eq_false_iff_ne.mpr fun hc => (beq_eq_false_iff_ne.mp hne) hc.symm
  rw [strStartsWith, h]
  simp [List.isPrefixOf, hic]

/-- Every message rendered by SchemaValidator.getErrors opens with either the
Unexpected or the Schema word, never with the IGNORED informational marker. -/
theorem getErrors_not_ignored (errs : List AjvError) :
    ∀ d ∈ SchemaValidator.getErrors errs, strStartsWith d "IGNORED::" = false := by
  intro d hd
  simp only [SchemaValidator.getErrors, List.mem_map] at hd
  obtain ⟨e, he, hde⟩ := hd
  subst hde
  rcases hap : e.additionalProperty with _ | p
  · simp only [hap]
    exact strStartsWith_ignored_false_of_head 'S' _ rfl (by decide)
  · simp only [hap]
    split
    · exact strStartsWith_ignored_false_of_head 'U' _ rfl (by decide)
    · exact strStartsWith_ignored_false_of_head 'S' _ rfl (by decide)

/-- The orchestrator produces exactly one result per json file of the old folder. -/
theorem compareFolders_results_length (opts : PayloadComparer.ComparerOptions)
    (oldF newF : List (String × Option Json)) :
    (PayloadComparer.compareFolders opts oldF newF).1.length =
      (oldF.filter (fun q => strEndsWith q.1 ".json")).length := by
  simp [PayloadComparer.compareFolders]

/-- C2: for old payload with a = 1 and new payload with a = 2, strict values give
one blocking value mismatch and an unmatched result; loose values give the same
finding flagged informational (surfaced in the differences, excluded from the
blocking count) and a matched result. Stated for both strictSchema settings and
both empty-tolerance settings, which the example does not constrain. -/
theorem value_mismatch_strictness_toggle (ss te : Bool) :
    ((PayloadComparer.compareFile ⟨ss, true, te⟩ "case.json"
        (some (.obj [("a", .num 1)])) (some (some (.obj [("a", .num 2)])))).matched = false ∧
     (PayloadComparer.compareFile ⟨ss, true, te⟩ "case.json"
        (some (.obj [("a", .num 1)])) (some (some (.obj [("a", .num 2)])))).differences =
       ["X Value mismatch at a: \"1\" vs \"2\""]) ∧
    ((PayloadComparer.compareFile ⟨ss, false, te⟩ "case.json"
        (some (.obj [("a", .num 1)])) (some (some (.obj [("a", .num 2)])))).matched = true ∧
     (PayloadComparer.compareFile ⟨ss, false, te⟩ "case.json"
        (some (.obj [("a", .num 1)])) (some (some (.obj [("a", .num 2)])))).differences =
       ["IGNORED:: ! Value mismatch at a: \"1\" vs \"2\""]) := by
  cases ss <;> cases te <;>
    refine ⟨⟨?_, ?_⟩, ?_, ?_⟩ <;>
    · simp [PayloadComparer.compareFile, PayloadComparer.compareLoaded,
        BasicComparator.compare, BasicComparator.compareFields, BasicComparator.compareEntry,
        jsGetK, keyStr, jsTypeof, isNonNullObject, jsStrictEq, jsToDisplay, strStartsWith,
        inferSchema, inferFields, SchemaStrictifier.enforceNoAdditionalProperties,
        SchemaStrictifier.enforceFields, SchemaStrictifier.enforceList, setField,
        setFieldList, getField, getFieldList, typeIsObject, SchemaValidator.validate,
        SchemaValidator.validateProps, SchemaValidator.validateTuple,
        SchemaValidator.getErrors, schemaTypeName, List.isPrefixOf, List.find?, Option.map]
      try rfl

/-- C3: for old payload with a = 1 and new payload adding b = 2, strict schema
reports the unexpected property b by name at the root instance path and the file
does not match; without strict schema the file matches. Stated for both
strictValues settings and both empty-tolerance settings. -/
theorem strict_schema_toggle (sv te : Bool) :
    ((PayloadComparer.compareFile ⟨true, sv, te⟩ "case.json"
        (some (.obj [("a", .num 1)]))
        (some (some (.obj [("a", .num 1), ("b", .num 2)])))).matched = false ∧
     (PayloadComparer.compareFile ⟨true, sv, te⟩ "case.json"
        (some (.obj [("a", .num 1)]))
        (some (some (.obj [("a", .num 1), ("b", .num 2)])))).differences =
       ["Unexpected property \"b\" at #. Schema does not allow additional properties."]) ∧
    ((PayloadComparer.compareFile ⟨false, sv, te⟩ "case.json"
        (some (.obj [("a", .num 1)]))
        (some (some (.obj [("a", .num 1), ("b", .num 2)])))).matched = true ∧
     (PayloadComparer.compareFile ⟨false, sv, te⟩ "case.json"
        (some (.obj [("a", .num 1)]))
        (some (some (.obj [("a", .num 1), ("b", .num 2)])))).differences = []) := by
  cases sv <;> cases te <;>
    refine ⟨⟨?_, ?_⟩, ?_, ?_⟩ <;>
    · simp [PayloadComparer.compareFile, PayloadComparer.compareLoaded,
        BasicComparator.compare, BasicComparator.compareFields, BasicComparator.compareEntry,
        jsGetK, keyStr, jsTypeof, isNonNullObject, jsStrictEq, jsToDisplay, strStartsWith,
        inferSchema, inferFields, SchemaStrictifier.enforceNoAdditionalProperties,
        SchemaStrictifier.enforceFields, SchemaStrictifier.enforceList, setField,
        setFieldList, getField, getFieldList, typeIsObject, SchemaValidator.validate,
        SchemaValidator.validateProps, SchemaValidator.validateTuple,
        SchemaValidator.getErrors, schemaTypeName, List.isPrefixOf, List.find?, Option.map]
      try rfl

/-- C4: for an old payload with keys a and b and a new payload keeping only a,
every combination of the three strictness switches yields an unmatched result
whose only difference is the missing-key record at path b (in particular the
comparator does not descend below the missing key). -/
theorem missing_key_always_blocking (ss sv te : Bool) :
    (PayloadComparer.compareFile ⟨ss, sv, te⟩ "case.json"
        (some (.obj [("a", .num 1), ("b", .num 2)]))
        (some (some (.obj [("a", .num 1)])))).matched = false ∧
    (PayloadComparer.compareFile ⟨ss, sv, te⟩ "case.json"
        (some (.obj [("a", .num 1), ("b", .num 2)]))
        (some (some (.obj [("a", .num 1)])))).differences =
      ["Missing key in new data: b"] := by
  cases ss <;> cases sv <;> cases te <;>
    refine ⟨?_, ?_⟩ <;>
    · simp [PayloadComparer.compareFile, PayloadComparer.compareLoaded,
        BasicComparator.compare, BasicComparator.compareFields, BasicComparator.compareEntry,
        jsGetK, keyStr, jsTypeof, isNonNullObject, jsStrictEq, jsToDisplay, strStartsWith,
        inferSchema, inferFields, SchemaStrictifier.enforceNoAdditionalProperties,
        SchemaStrictifier.enforceFields, SchemaStrictifier.enforceList, setField,
        setFieldList, getField, getFieldList, typeIsObject, SchemaValidator.validate,
        SchemaValidator.validateProps, SchemaValidator.validateTuple,
        SchemaValidator.getErrors, schemaTypeName, List.isPrefixOf, List.find?, Option.map]
      try rfl

/-- C5: when both files load but at least one payload is the Empty sentinel,
tolerateEmptyResponses set makes the file match with the single informational
note, and unset makes it unmatched with only blocking empty-payload records;
in either case the orchestrator still emits one result per listed json file of
the old folder, so the run never aborts on an empty payload. -/
theorem empty_payload_tolerance (ss sv : Bool) (file : String) (o n : Option Json)
    (h : o = none ∨ n = none) :
    ((PayloadComparer.compareFile ⟨ss, sv, true⟩ file o (some n)).matched = true ∧
     (PayloadComparer.compareFile ⟨ss, sv, true⟩ file o (some n)).differences =
       ["! One or both payloads in " ++ file ++
         " are empty or missing. Ignored due to tolerateEmptyResponses=true."]) ∧
    ((PayloadComparer.compareFile ⟨ss, sv, false⟩ file o (some n)).matched = false ∧
     (PayloadComparer.compareFile ⟨ss, sv, false⟩ file o (some n)).differences ≠ [] ∧
     ∀ d ∈ (PayloadComparer.compareFile ⟨ss, sv, false⟩ file o (some n)).differences,
       (d = "X Old data is not a valid object. Got empty or missing." ∨
        d = "X New data is not a valid object. Got empty or missing.") ∧
       strStartsWith d "IGNORED::" = false) ∧
    (∀ opts oldF newF, (PayloadComparer.compareFolders opts oldF newF).1.length =
      (oldF.filter (fun q => strEndsWith q.1 ".json")).length) := by
  have hX1 : strStartsWith "X Old data is not a valid object. Got empty or missing."
      "IGNORED::" = false := strStartsWith_ignored_false_of_head 'X' _ rfl (by decide)
  have hX2 : strStartsWith "X New data is not a valid object. Got empty or missing."
      "IGNORED::" = false := strStartsWith_ignored_false_of_head 'X' _ rfl (by decide)
  refine ⟨?_, ?_, fun opts oldF newF => compareFolders_results_length opts oldF newF⟩
  · rcases h with h | h <;> subst h
    · cases n <;> simp [PayloadComparer.compareFile]
    · cases o <;> simp [PayloadComparer.compareFile]
  · rcases h with h | h <;> subst h
    · cases n with
      | none =>
        refine ⟨by simp [PayloadComparer.compareFile],
          by simp [PayloadComparer.compareFile], ?_⟩
        intro d hd
        simp [PayloadComparer.compareFile] at hd
        rcases hd with hd | hd <;> subst hd
        · exact ⟨Or.inl rfl, hX1⟩
        · exact ⟨Or.inr rfl, hX2⟩
      | some v =>
        refine ⟨by simp [PayloadComparer.compareFile],
          by simp [PayloadComparer.compareFile], ?_⟩
        intro d hd
        simp [PayloadComparer.compareFile] at hd
        subst hd
        exact ⟨Or.inl rfl, hX1⟩
    · cases o with
      | none =>
        refine ⟨by simp [PayloadComparer.compareFile],
          by simp [PayloadComparer.compareFile], ?_⟩
        intro d hd
        simp [PayloadComparer.compareFile] at hd
        rcases hd with hd | hd <;> subst hd
        · exact ⟨Or.inl rfl, hX1⟩
        · exact ⟨Or.inr rfl, hX2⟩
      | some v =>
        refine ⟨by simp [PayloadComparer.compareFile],
          by simp [PayloadComparer.compareFile], ?_⟩
        intro d hd
        simp [PayloadComparer.compareFile] at hd
        subst hd
        exact ⟨Or.inr rfl, hX2⟩

/-- Closed instance discharging the hypothesis of the C5 theorem at a concrete
empty old payload. -/
theorem empty_payload_tolerance_witness :
    ((some (Json.num 1) : Option Json) = none ∨ (none : Option Json) = none) ∧
    (PayloadComparer.compareFile ⟨true, true, true⟩ "w.json" (some (Json.num 1))
        (some none)).matched = true := by
  refine ⟨Or.inr rfl, ?_⟩
  exact (empty_payload_tolerance true true "w.json" (some (Json.num 1)) none
    (Or.inr rfl)).1.1

/-- C10: whenever the old value is a non-null object and the new value is null or
not an object, the comparator stops with exactly the single guard record naming
the new data at the current path, without recursing or touching any key of the
old value. -/
theorem new_data_guard (sv : Bool) (oldData newData : Json) (path : String)
    (hold : isNonNullObject oldData = true) (hnew : isNonNullObject newData = false) :
    BasicComparator.compare sv oldData newData path =
      [BasicComparator.newNotObjectMsg newData path] := by
  match oldData, hold with
  | .obj fs, _ => rw [BasicComparator.compare]; simp [hnew]
  | .arr xs, _ => rw [BasicComparator.compare]; simp [hnew]

/-- Splitting a difference list into its blocking part (the structural findings
kept by the non-IGNORED filter plus the schema errors) and its informational
part: the blocking records come first and the matched flag reflects exactly the
absence of blocking records. -/
theorem blocking_split (L E : List String)
    (hE : ∀ d ∈ E, strStartsWith d "IGNORED::" = false) :
    ((L.filter (fun d => !(strStartsWith d "IGNORED::")) ++ E).isEmpty = true ↔
      ((L.filter (fun d => !(strStartsWith d "IGNORED::")) ++ E) ++
        L.filter (fun d => strStartsWith d "IGNORED::")).filter
          (fun d => !(strStartsWith d "IGNORED::")) = []) ∧
    (L.filter (fun d => !(strStartsWith d "IGNORED::")) ++ E) ++
        L.filter (fun d => strStartsWith d "IGNORED::") =
      (((L.filter (fun d => !(strStartsWith d "IGNORED::")) ++ E) ++
          L.filter (fun d => strStartsWith d "IGNORED::")).filter
            (fun d => !(strStartsWith d "IGNORED::"))) ++
      (((L.filter (fun d => !(strStartsWith d "IGNORED::")) ++ E) ++
          L.filter (fun d => strStartsWith d "IGNORED::")).filter
            (fun d => strStartsWith d "IGNORED::")) := by
  have hreal : (L.filter (fun d => !(strStartsWith d "IGNORED::"))).filter
      (fun d => !(strStartsWith d "IGNORED::")) =
      L.filter (fun d => !(strStartsWith d "IGNORED::")) :=
    List.filter_eq_self.mpr fun a ha => (List.mem_filter.mp ha).2
  have hEkeep : E.filter (fun d => !(strStartsWith d "IGNORED::")) = E :=
    List.filter_eq_self.mpr fun a ha => by simp [hE a ha]
  have hidrop : (L.filter (fun d => strStartsWith d "IGNORED::")).filter
      (fun d => !(strStartsWith d "IGNORED::")) = [] := by
    rw [List.filter_eq_nil_iff]
    intro a ha
    have := (List.mem_filter.mp ha).2
    simp [this]
  have hrdrop : (L.filter (fun d => !(strStartsWith d "IGNORED::"))).filter
      (fun d => strStartsWith d "IGNORED::") = [] := by
    rw [List.filter_eq_nil_iff]
    intro a ha
    have h2 := (List.mem_filter.mp ha).2
    simp at h2
    simp [h2]
  have hEdrop : E.filter (fun d => strStartsWith d "IGNORED::") = [] := by
    rw [List.filter_eq_nil_iff]
    intro a ha
    simp [hE a ha]
  have hikeep : (L.filter (fun d => strStartsWith d "IGNORED::")).filter
      (fun d => strStartsWith d "IGNORED::") =
      L.filter (fun d => strStartsWith d "IGNORED::") :=
    List.filter_eq_self.mpr fun a ha => (List.mem_filter.mp ha).2
  constructor
  · rw [List.filter_append, List.filter_append, hreal, hEkeep, hidrop,
      List.append_nil, List.isEmpty_iff]
  · rw [List.filter_append, List.filter_append, List.filter_append, List.filter_append,
      hreal, hEkeep, hidrop, hrdrop, hEdrop, hikeep]
    simp

/-- C1: a per-file result of a run whose two payloads are non-Empty belongs to
the orchestrator's result list, its matched flag holds exactly when the blocking
part of its differences (structural realDiffs plus schemaErrors, the non-IGNORED
records) is empty, and its differences sequence lists all blocking records before
all informational IGNORED ones. -/
theorem file_result_matched_invariant (opts : PayloadComparer.ComparerOptions)
    (file : String) (o n : Json) (oldF newF : List (String × Option Json))
    (hmem : (file, some o) ∈ oldF.filter (fun q => strEndsWith q.1 ".json"))
    (hnew : PayloadComparer.lookupFile newF file = some (some n)) :
    PayloadComparer.compareFile opts file (some o) (some (some n)) ∈
      (PayloadComparer.compareFolders opts oldF newF).1 ∧
    ((PayloadComparer.compareFile opts file (some o) (some (some n))).matched = true ↔
      (PayloadComparer.compareFile opts file (some o) (some (some n))).differences.filter
        (fun d => !(strStartsWith d "IGNORED::")) = []) ∧
    (PayloadComparer.compareFile opts file (some o) (some (some n))).differences =
      (PayloadComparer.compareFile opts file (some o) (some (some n))).differences.filter
        (fun d => !(strStartsWith d "IGNORED::")) ++
      (PayloadComparer.compareFile opts file (some o) (some (some n))).differences.filter
        (fun d => strStartsWith d "IGNORED::") := by
  have hE := getErrors_not_ignored
    (SchemaValidator.validate
      (setField
        (if opts.strictSchema then
          SchemaStrictifier.enforceNoAdditionalProperties (inferSchema o)
         else inferSchema o)
        "$schema" (.str "http://json-schema.org/draft-07/schema#"))
      n "")
  refine ⟨?_, ?_, ?_⟩
  · simp only [PayloadComparer.compareFolders]
    refine List.mem_map.mpr ⟨(file, some o), hmem, ?_⟩
    simp [hnew]
  · simpa [PayloadComparer.compareFile, PayloadComparer.compareLoaded] using
      (blocking_split (BasicComparator.compare opts.strictValues o n "") _ hE).1
  · simpa [PayloadComparer.compareFile, PayloadComparer.compareLoaded] using
      (blocking_split (BasicComparator.compare opts.strictValues o n "") _ hE).2

/-- Closed instance discharging the hypotheses of the C1 theorem on a concrete
one-file run. -/
theorem file_result_matched_invariant_witness :
    ("a.json", some (Json.obj [("a", Json.num 1)])) ∈
      ([(("a.json" : String), some (Json.obj [("a", Json.num 1)]))].filter
        (fun q => strEndsWith q.1 ".json")) ∧
    PayloadComparer.lookupFile [("a.json", some (Json.obj [("a", Json.num 2)]))] "a.json" =
      some (some (Json.obj [("a", Json.num 2)])) ∧
    ((PayloadComparer.compareFile ⟨true, true, false⟩ "a.json"
        (some (Json.obj [("a", Json.num 1)]))
        (some (some (Json.obj [("a", Json.num 2)])))).matched = true ↔
      (PayloadComparer.compareFile ⟨true, true, false⟩ "a.json"
        (some (Json.obj [("a", Json.num 1)]))
        (some (some (Json.obj [("a", Json.num 2)])))).differences.filter
          (fun d => !(strStartsWith d "IGNORED::")) = []) := by
  have hm : ("a.json", some (Json.obj [("a", Json.num 1)])) ∈
      ([(("a.json" : String), some (Json.obj [("a", Json.num 1)]))].filter
        (fun q => strEndsWith q.1 ".json")) :=
    List.mem_filter.mpr ⟨List.mem_singleton.mpr rfl, by decide⟩
  refine ⟨hm, rfl, ?_⟩
  exact (file_result_matched_invariant ⟨true, true, false⟩ "a.json"
    (Json.obj [("a", Json.num 1)]) (Json.obj [("a", Json.num 2)])
    [("a.json", some (Json.obj [("a", Json.num 1)]))]
    [("a.json", some (Json.obj [("a", Json.num 2)]))]
    hm rfl).2.1

/-- Every branch of the per-file loop stamps the record with the file's name. -/
theorem compareFile_fileName (opts : PayloadComparer.ComparerOptions) (file : String)
    (o : Option Json) (e : Option (Option Json)) :
    (PayloadComparer.compareFile opts file o e).fileName = file := by
  rcases e with _ | nd
  · rfl
  · rcases o with _ | ov <;> rcases nd with _ | nv <;>
      simp only [PayloadComparer.compareFile] <;>
      first
        | rfl
        | (split <;> rfl)

/-- C9: the compared file set is exactly the json listing of the old folder (one
result per listed file, bearing its name, in listing order), and files present
only in the new folder are invisible: extending the new folder with entries whose
names match no json file of the old folder leaves the whole run output unchanged. -/
theorem old_folder_drives_comparison (opts : PayloadComparer.ComparerOptions)
    (oldF newF : List (String × Option Json)) :
    ((PayloadComparer.compareFolders opts oldF newF).1.map (fun r => r.fileName) =
      (oldF.filter (fun q => strEndsWith q.1 ".json")).map (fun q => q.1)) ∧
    ∀ extra : List (String × Option Json),
      (∀ q ∈ extra, ∀ p ∈ oldF.filter (fun p2 => strEndsWith p2.1 ".json"), q.1 ≠ p.1) →
      PayloadComparer.compareFolders opts oldF (newF ++ extra) =
        PayloadComparer.compareFolders opts oldF newF := by
  constructor
  · simp only [PayloadComparer.compareFolders, List.map_map]
    refine List.map_congr_left fun q hq => ?_
    exact compareFile_fileName opts q.1 q.2 (PayloadComparer.lookupFile newF q.1)
  · intro extra hdisj
    have hlk : ∀ q ∈ oldF.filter (fun p2 => strEndsWith p2.1 ".json"),
        PayloadComparer.lookupFile (newF ++ extra) q.1 =
          PayloadComparer.lookupFile newF q.1 := by
      intro q hq
      simp only [PayloadComparer.lookupFile, List.find?_append]
      cases hf : newF.find? (fun p2 => p2.1 == q.1) with
      | some v => simp
      | none =>
        have hex : extra.find? (fun p2 => p2.1 == q.1) = none := by
          rw [List.find?_eq_none]
          intro a ha
          simp only [Bool.not_eq_true]
          exact beq_eq_false_iff_ne.mpr (hdisj a ha q hq)
        simp [hex]
    have hres : (oldF.filter (fun q => strEndsWith q.1 ".json")).map
        (fun q => PayloadComparer.compareFile opts q.1 q.2
          (PayloadComparer.lookupFile (newF ++ extra) q.1)) =
        (oldF.filter (fun q => strEndsWith q.1 ".json")).map
        (fun q => PayloadComparer.compareFile opts q.1 q.2
          (PayloadComparer.lookupFile newF q.1)) :=
      List.map_congr_left fun q hq => by rw [hlk q hq]
    simp only [PayloadComparer.compareFolders]
    rw [hres]

/-- Closed instance discharging the disjointness hypothesis of the C9 theorem on
a concrete new-only file. -/
theorem old_folder_drives_comparison_witness :
    (∀ q ∈ [(("b.json" : String), some (Json.num 2))],
      ∀ p ∈ ([(("a.json" : String), some (Json.num 1))].filter
        (fun p2 => strEndsWith p2.1 ".json")), q.1 ≠ p.1) ∧
    PayloadComparer.compareFolders ⟨true, true, false⟩
        [("a.json", some (Json.num 1))] ([] ++ [("b.json", some (Json.num 2))]) =
      PayloadComparer.compareFolders ⟨true, true, false⟩
        [("a.json", some (Json.num 1))] [] := by
  have hdisj : ∀ q ∈ [(("b.json" : String), some (Json.num 2))],
      ∀ p ∈ ([(("a.json" : String), some (Json.num 1))].filter
        (fun p2 => strEndsWith p2.1 ".json")), q.1 ≠ p.1 := by decide
  exact ⟨hdisj, (old_folder_drives_comparison ⟨true, true, false⟩
    [("a.json", some (Json.num 1))] []).2 [("b.json", some (Json.num 2))] hdisj⟩

/-- A parser that rejects every input, standing in for JSON.parse on unparsable
content in the witness below. -/
def failingParse : String → Except String Json := fun _ => .error "Unexpected token"

/-- C8: loadAndParseJson maps trimmed-empty content, the literal two-quote
string and the literal null to the Empty sentinel silently, and any other
content rejected by JSON.parse to the Empty sentinel with a logged warning —
in every case it returns a value to the caller instead of propagating a parse
failure. -/
theorem loadAndParseJson_normalizes (parse : String → Except String Json)
    (filePath content : String) :
    ((PayloadComparer.jsTrim content = "" ∨ PayloadComparer.jsTrim content = "\"\"" ∨
        PayloadComparer.jsTrim content = "null") →
      PayloadComparer.loadAndParseJson parse filePath content = (none, [])) ∧
    (∀ msg, ¬(PayloadComparer.jsTrim content = "" ∨
        PayloadComparer.jsTrim content = "\"\"" ∨
        PayloadComparer.jsTrim content = "null") →
      parse (PayloadComparer.jsTrim content) = .error msg →
      PayloadComparer.loadAndParseJson parse filePath content =
        (none, ["! Failed to parse JSON at " ++ filePath ++ ": " ++ msg])) := by
  constructor
  · intro h
    simp only [PayloadComparer.loadAndParseJson]
    rw [if_pos h]
  · intro msg hnot herr
    simp only [PayloadComparer.loadAndParseJson]
    rw [if_neg hnot, herr]

/-- Closed instances discharging the hypotheses of the C8 theorem: whitespace
around the literal null normalizes silently, and unparsable content produces the
sentinel plus a warning. -/
theorem loadAndParseJson_normalizes_witness :
    (PayloadComparer.jsTrim " null " = "" ∨ PayloadComparer.jsTrim " null " = "\"\"" ∨
      PayloadComparer.jsTrim " null " = "null") ∧
    PayloadComparer.loadAndParseJson failingParse "p.json" " null " = (none, []) ∧
    ¬(PayloadComparer.jsTrim "not json" = "" ∨ PayloadComparer.jsTrim "not json" = "\"\"" ∨
      PayloadComparer.jsTrim "not json" = "null") ∧
    PayloadComparer.loadAndParseJson failingParse "p.json" "not json" =
      (none, ["! Failed to parse JSON at p.json: Unexpected token"]) := by
  have hsent : (PayloadComparer.jsTrim " null " = "" ∨
      PayloadComparer.jsTrim " null " = "\"\"" ∨
      PayloadComparer.jsTrim " null " = "null") := by decide
  have hnot : ¬(PayloadComparer.jsTrim "not json" = "" ∨
      PayloadComparer.jsTrim "not json" = "\"\"" ∨
      PayloadComparer.jsTrim "not json" = "null") := by decide
  refine ⟨hsent, ?_, hnot, ?_⟩
  · exact (loadAndParseJson_normalizes failingParse "p.json" " null ").1 hsent
  · exact (loadAndParseJson_normalizes failingParse "p.json" "not json").2
      "Unexpected token" hnot rfl

/-- Closed instance discharging the hypotheses of the C10 theorem at a concrete
object against a number. -/
theorem new_data_guard_witness :
    isNonNullObject (.obj [("k", .num 1)]) = true ∧
    isNonNullObject (.num 5) = false ∧
    BasicComparator.compare true (.obj [("k", .num 1)]) (.num 5) "" =
      [BasicComparator.newNotObjectMsg (.num 5) ""] :=
  ⟨rfl, rfl, new_data_guard true (.obj [("k", .num 1)]) (.num 5) "" rfl rfl⟩

/-- Sorted ascending lists end in an upper bound of all their members. -/
theorem sorted_le_getLast {s : List String} (hs : s.Sorted (· ≤ ·)) (hne : s ≠ [])
    (x : String) (hx : x ∈ s) : x ≤ s.getLast hne := by
  obtain ⟨i, hi, rfl⟩ := List.mem_iff_getElem.mp hx
  rw [List.getLast_eq_getElem]
  rcases Nat.lt_or_ge i (s.length - 1) with hlt | hge
  · have := hs.rel_get_of_lt
      (show (⟨i, hi⟩ : Fin s.length) < ⟨s.length - 1, by omega⟩ from by
        simp [Fin.lt_def]; omega)
    simpa [List.get_eq_getElem] using this
  · have hieq : i = s.length - 1 := by
      have := List.length_pos.mpr hne
      omega
    subst hieq
    exact le_refl _

/-- Removing one occurrence of the maximum from a sorted list leaves the
second-to-last entry as a member and an upper bound of the remainder. -/
theorem sorted_erase_last_max {s : List String} {a b : String} (hs : s.Sorted (· ≤ ·))
    (hne : s ≠ []) (hdne : s.dropLast ≠ [])
    (hb : s.getLast hne = b) (ha : s.dropLast.getLast hdne = a) :
    a ∈ s.erase b ∧ ∀ x ∈ s.erase b, x ≤ a := by
  have hsplit : s.dropLast ++ [b] = s := by
    rw [← hb]; exact List.dropLast_append_getLast hne
  have hinit_sorted : s.dropLast.Sorted (· ≤ ·) := hs.sublist (List.dropLast_sublist s)
  have hmax_init : ∀ x ∈ s.dropLast, x ≤ a := by
    rw [← ha]; exact fun x hx => sorted_le_getLast hinit_sorted hdne x hx
  have ha_mem_init : a ∈ s.dropLast := by
    rw [← ha]; exact List.getLast_mem hdne
  have ha_mem_s : a ∈ s := (List.dropLast_sublist s).mem ha_mem_init
  have hb_max : ∀ x ∈ s, x ≤ b := by
    rw [← hb]; exact fun x hx => sorted_le_getLast hs hne x hx
  by_cases hmem : b ∈ s.dropLast
  · have hab : a = b := le_antisymm (hb_max _ ha_mem_s) (hmax_init _ hmem)
    have herase := List.erase_append_left [b] hmem
    rw [hsplit] at herase
    rw [herase]
    constructor
    · rw [hab]
      exact List.mem_append_right _ (List.mem_singleton.mpr rfl)
    · intro x hx
      rcases List.mem_append.mp hx with hx | hx
      · exact hmax_init _ (List.mem_of_mem_erase hx)
      · rw [List.mem_singleton.mp hx, ← hab]
  · have herase := List.erase_append_right [b] hmem
    rw [hsplit, List.erase_cons_head, List.append_nil] at herase
    rw [herase]
    exact ⟨ha_mem_init, hmax_init⟩

/-- C6: getLatestTwoPayloadFolders applied to fewer than two folder names yields
the absence value, never a partial pair; applied to two or more names it yields
the pair (previous, latest): the lexically greatest name second and, first, a
greatest name of the remainder once one occurrence of the latest is removed —
the first two entries of the descending sort. -/
theorem latest_two_folders_spec (l : List String) :
    (l.length < 2 → PayloadComparer.getLatestTwoPayloadFolders l = none) ∧
    (2 ≤ l.length → ∃ prev latest,
      PayloadComparer.getLatestTwoPayloadFolders l = some (prev, latest) ∧
      latest ∈ l ∧ (∀ x ∈ l, x ≤ latest) ∧
      prev ∈ l.erase latest ∧ (∀ x ∈ l.erase latest, x ≤ prev)) := by
  have hperm : (List.insertionSort (fun a b => a ≤ b) l).Perm l := List.perm_insertionSort _ l
  have hsort : (List.insertionSort (fun a b => a ≤ b) l).Sorted (· ≤ ·) :=
    List.sorted_insertionSort _ l
  set s := List.insertionSort (fun a b => a ≤ b) l with hs
  have hlen : s.length = l.length := hperm.length_eq
  have heval : PayloadComparer.getLatestTwoPayloadFolders l =
      if s.reverse.length < 2 then none else some (s.reverse[1]!, s.reverse[0]!) := by
    rw [hs]
    rfl
  constructor
  · intro h
    rw [heval, if_pos (by rw [List.length_reverse, hlen]; exact h)]
  · intro h2
    have hns : s ≠ [] := by
      intro hempty
      rw [hempty] at hlen
      simp at hlen
      omega
    have hdne : s.dropLast ≠ [] := by
      intro hempty
      have := congrArg List.length hempty
      simp [List.length_dropLast, hlen] at this
      omega
    have hb : s.getLast hns = s.reverse[0]! := by
      rw [getElem!_pos s.reverse 0 (by rw [List.length_reverse, hlen]; omega),
        List.getElem_reverse, List.getLast_eq_getElem]
      simp
    have ha : s.dropLast.getLast hdne = s.reverse[1]! := by
      rw [getElem!_pos s.reverse 1 (by rw [List.length_reverse, hlen]; omega),
        List.getElem_reverse, List.getLast_eq_getElem, List.getElem_dropLast]
      simp [List.length_dropLast]
    have key := sorted_erase_last_max hsort hns hdne hb ha
    refine ⟨s.reverse[1]!, s.reverse[0]!, ?_, ?_, ?_, ?_, ?_⟩
    · rw [heval, if_neg (by rw [List.length_reverse, hlen]; omega)]
    · exact hperm.mem_iff.mp (hb ▸ List.getLast_mem hns)
    · intro x hx
      exact hb ▸ sorted_le_getLast hsort hns x (hperm.mem_iff.mpr hx)
    · exact ((hperm.erase _).mem_iff).mp key.1
    · intro x hx
      exact key.2 x (((hperm.erase _).mem_iff).mpr hx)

/-- Closed instances discharging the hypotheses of the C6 theorem: one folder
name yields the absence value, and the three spec example folder names yield a
pair. -/
theorem latest_two_folders_spec_witness :
    PayloadComparer.getLatestTwoPayloadFolders ["2025.01.01.000000"] = none ∧
    (∃ prev latest,
      PayloadComparer.getLatestTwoPayloadFolders
          ["2025.01.01.000000", "2025.01.02.000000", "2025.01.03.000000"] =
        some (prev, latest) ∧
      latest ∈ ["2025.01.01.000000", "2025.01.02.000000", "2025.01.03.000000"] ∧
      (∀ x ∈ ["2025.01.01.000000", "2025.01.02.000000", "2025.01.03.000000"], x ≤ latest) ∧
      prev ∈ ["2025.01.01.000000", "2025.01.02.000000", "2025.01.03.000000"].erase latest ∧
      (∀ x ∈ ["2025.01.01.000000", "2025.01.02.000000", "2025.01.03.000000"].erase latest,
        x ≤ prev)) :=
  ⟨(latest_two_folders_spec ["2025.01.01.000000"]).1 (by decide),
   (latest_two_folders_spec
     ["2025.01.01.000000", "2025.01.02.000000", "2025.01.03.000000"]).2 (by decide)⟩

/-- In an association list with duplicate-free keys, the lookup of a member's key
finds exactly that member. -/
theorem find?_key_eq_of_nodup {β : Type} (l : List (String × β)) (q : String × β)
    (hnd : (l.map Prod.fst).Nodup) (hq : q ∈ l) :
    l.find? (fun r => r.1 == q.1) = some q := by
  induction l with
  | nil => cases hq
  | cons p rest ih =>
    rw [List.map_cons, List.nodup_cons] at hnd
    by_cases hpq : (p.1 == q.1) = true
    · have hqp : q = p := by
        rcases List.mem_cons.mp hq with h | h
        · exact h
        · exfalso
          apply hnd.1
          rw [beq_iff_eq] at hpq
          rw [hpq]
          exact List.mem_map.mpr ⟨q, h, rfl⟩
      subst hqp
      exact List.find?_cons_of_pos _ (by simp)
    · have hqrest : q ∈ rest := by
        rcases List.mem_cons.mp hq with h | h
        · exfalso; apply hpq; rw [h]; exact beq_self_eq_true _
        · exact h
      rw [List.find?_cons_of_neg _ (by simpa using hpq)]
      exact ih hnd.2 hqrest

/-- JS strict equality is reflexive on the values reaching the primitive branch. -/
theorem jsStrictEq_self_of_scalar (v : Json) (hv : isNonNullObject v = false) :
    jsStrictEq v v = true := by
  cases v <;> simp_all [jsStrictEq, isNonNullObject]

/-- Member values of a well-formed field list are well-formed. -/
theorem WFfields_mem {fs : List (String × Json)} (h : WFfields fs = true) :
    ∀ q ∈ fs, WFj q.2 = true := by
  induction fs with
  | nil => intro q hq; cases hq
  | cons p rest ih =>
    rw [WFfields, Bool.and_eq_true] at h
    intro q hq
    rcases List.mem_cons.mp hq with hh | hh
    · subst hh; exact h.1
    · exact ih h.2 q hh

/-- Member elements of a well-formed item list are well-formed. -/
theorem WFitems_mem {xs : List Json} (h : WFitems xs = true) :
    ∀ y ∈ xs, WFj y = true := by
  induction xs with
  | nil => intro y hy; cases hy
  | cons v rest ih =>
    rw [WFitems, Bool.and_eq_true] at h
    intro y hy
    rcases List.mem_cons.mp hy with hh | hh
    · subst hh; exact h.1
    · exact ih h.2 y hh

/-- The structural differ finds nothing when a well-formed non-Empty object or
array payload is compared against itself. -/
theorem compare_self_nil (sv : Bool) :
    ∀ (N : Nat) (o : Json), sizeOf o < N → WFj o = true → isNonNullObject o = true →
      ∀ path, BasicComparator.compare sv o o path = [] := by
  intro N
  induction N with
  | zero =>
    intro o hsz
    exact absurd hsz (by omega)
  | succ N ih =>
    intro o hsz hwf hnno path
    cases o with
    | null => cases hnno
    | bool b => cases hnno
    | num n => cases hnno
    | str s => cases hnno
    | obj fs =>
      rw [WFj, Bool.and_eq_true] at hwf
      have hnd : (fs.map Prod.fst).Nodup := of_decide_eq_true hwf.1
      have hwfmem := WFfields_mem hwf.2
      have hget : ∀ q ∈ fs, jsGetK (Json.obj fs) (.field q.1) = some q.2 := by
        intro q hq
        simp only [jsGetK, keyStr]
        rw [find?_key_eq_of_nodup fs q hnd hq]
        rfl
      have hsize : ∀ q ∈ fs, sizeOf q.2 < N := by
        intro q hq
        have h1 := sizeOf_lt_of_jsGetK (hget q hq)
        omega
      have hfields : ∀ l2 : List (String × Json), (∀ q ∈ l2, q ∈ fs) →
          BasicComparator.compareFields sv l2 (Json.obj fs) path = [] := by
        intro l2
        induction l2 with
        | nil => intro _; rw [BasicComparator.compareFields]
        | cons q rest ihl =>
          intro hsub
          obtain ⟨k, v⟩ := q
          have hqmem : (k, v) ∈ fs := hsub _ (List.mem_cons_self _ _)
          have hg : jsGetK (Json.obj fs) (.field k) = some v := hget (k, v) hqmem
          rw [BasicComparator.compareFields, BasicComparator.compareEntry]
          simp only [hg]
          by_cases hv : isNonNullObject v = true
          · have hrec := ih v (hsize (k, v) hqmem) (hwfmem (k, v) hqmem) hv
            simp [hv, hrec, ihl (fun q hq => hsub q (List.mem_cons_of_mem _ hq))]
          · have hse := jsStrictEq_self_of_scalar v (by simpa using hv)
            simp [hv, hse, ihl (fun q hq => hsub q (List.mem_cons_of_mem _ hq))]
      rw [BasicComparator.compare]
      simp only [isNonNullObject, if_true]
      exact hfields fs (fun q hq => hq)
    | arr xs =>
      rw [WFj] at hwf
      have hwfmem := WFitems_mem hwf
      have hgeti : ∀ i (hi : i < xs.length),
          jsGetK (Json.arr xs) (.index i) = some (xs.get ⟨i, hi⟩) := by
        intro i hi
        simp [jsGetK, List.getElem?_eq_getElem hi]
      have hitems : ∀ (l2 : List Json) (i0 : Nat),
          (∀ j (hj : j < l2.length), jsGetK (Json.arr xs) (.index (i0 + j)) =
            some (l2.get ⟨j, hj⟩)) →
          (∀ y ∈ l2, WFj y = true) →
          BasicComparator.compareItems sv l2 i0 (Json.arr xs) path = [] := by
        intro l2
        induction l2 with
        | nil => intro i0 _ _; rw [BasicComparator.compareItems]
        | cons y rest ihl =>
          intro i0 hj hwfl
          have hg : jsGetK (Json.arr xs) (.index i0) = some y := by
            simpa using hj 0 (by simp)
          have hsy : sizeOf y < N := by
            have h1 := sizeOf_lt_of_jsGetK hg
            omega
          rw [BasicComparator.compareItems, BasicComparator.compareEntry]
          simp only [hg]
          have htail : BasicComparator.compareItems sv rest (i0 + 1) (Json.arr xs) path = [] := by
            apply ihl
            · intro j hj2
              have := hj (j + 1) (by simpa using Nat.succ_lt_succ hj2)
              rw [show i0 + (j + 1) = i0 + 1 + j by omega] at this
              simpa using this
            · exact fun y2 hy2 => hwfl y2 (List.mem_cons_of_mem _ hy2)
          by_cases hv : isNonNullObject y = true
          · have hrec := ih y hsy (hwfl y (List.mem_cons_self _ _)) hv
            simp [hv, hrec, htail]
          · have hse := jsStrictEq_self_of_scalar y (by simpa using hv)
            simp [hv, hse, htail]
      rw [BasicComparator.compare]
      simp only [isNonNullObject, if_true]
      apply hitems xs 0
      · intro j hj
        have := hgeti j hj
        simpa using this
      · exact hwfmem

/-- Validating against an empty property list finds nothing. -/
theorem validateProps_nil (data : Json) (path : String) :
    SchemaValidator.validateProps [] data path = [] := by
  rw [SchemaValidator.validateProps]

/-- One step of property validation when the property is present in the data. -/
theorem validateProps_cons_of_get {k : String} {sub dv data : Json}
    {rest : List (String × Json)} {path : String}
    (h : jsGetK data (.field k) = some dv) :
    SchemaValidator.validateProps ((k, sub) :: rest) data path =
      SchemaValidator.validate sub dv (path ++ "/" ++ k) ++
        SchemaValidator.validateProps rest data path := by
  rw [SchemaValidator.validateProps]
  congr 1
  split
  · rename_i dv2 h2
    rw [h] at h2
    cases h2
    rfl
  · rename_i h2
    rw [h] at h2
    cases h2

/-- The inferencer model always emits an object-shaped schema. -/
theorem inferSchema_is_obj (v : Json) : ∃ gs, inferSchema v = Json.obj gs := by
  cases v <;> simp [inferSchema]

/-- The inferred property list maps the inferencer over the field values. -/
theorem inferFields_map (fs : List (String × Json)) :
    inferFields fs = fs.map (fun q => (q.1, inferSchema q.2)) := by
  induction fs with
  | nil => rw [inferFields]; rfl
  | cons q rest ih =>
    obtain ⟨k, v⟩ := q
    rw [inferFields, ih]
    rfl

/-- The inferred item list maps the inferencer over the elements. -/
theorem inferList_map (xs : List Json) : inferList xs = xs.map inferSchema := by
  induction xs with
  | nil => rw [inferList]; rfl
  | cons v rest ih => rw [inferList, ih]; rfl

/-- The strictifier's field recursion maps it over the field values. -/
theorem enforceFields_map (l : List (String × Json)) :
    SchemaStrictifier.enforceFields l =
      l.map (fun q => (q.1, SchemaStrictifier.enforceNoAdditionalProperties q.2)) := by
  induction l with
  | nil => rw [SchemaStrictifier.enforceFields]; rfl
  | cons q rest ih =>
    obtain ⟨k, v⟩ := q
    rw [SchemaStrictifier.enforceFields, ih]
    rfl

/-- The strictifier's list recursion maps it over the elements. -/
theorem enforceList_map (l : List Json) :
    SchemaStrictifier.enforceList l =
      l.map SchemaStrictifier.enforceNoAdditionalProperties := by
  induction l with
  | nil => rw [SchemaStrictifier.enforceList]; rfl
  | cons v rest ih => rw [SchemaStrictifier.enforceList, ih]; rfl

/-- Values stored in an inferred property list are themselves inferred schemas. -/
theorem getFieldList_inferFields {fs : List (String × Json)} {k : String} {v : Json}
    (h : getFieldList (inferFields fs) k = some v) : ∃ w, v = inferSchema w := by
  induction fs with
  | nil =>
    rw [inferFields] at h
    simp [getFieldList] at h
  | cons q rest ih =>
    obtain ⟨k2, v2⟩ := q
    rw [inferFields] at h
    by_cases hk : (k2 == k) = true
    · rw [getFieldList, List.find?_cons_of_pos _ (by simpa using hk)] at h
      simp at h
      exact ⟨v2, h.symm⟩
    · rw [getFieldList, List.find?_cons_of_neg _ (by simpa using hk)] at h
      exact ih (by rw [getFieldList]; exact h)

/-- The property container of an inferred schema never carries an object type
word, so the strictifier does not mark the container itself. -/
theorem typeIsObject_inferFields (fs : List (String × Json)) :
    typeIsObject (inferFields fs) = false := by
  rw [typeIsObject]
  rcases hf : getFieldList (inferFields fs) "type" with _ | v
  · rfl
  · obtain ⟨w, rfl⟩ := getFieldList_inferFields hf
    obtain ⟨gs, hgs⟩ := inferSchema_is_obj w
    rw [hgs]

/-- Appending extra fields at the end of a schema object. -/
def appendFieldsJ : Json → List (String × Json) → Json
  | .obj fs, extra => .obj (fs ++ extra)
  | j, _ => j

/-- Appending no fields is the identity. -/
theorem appendFieldsJ_nil (s : Json) : appendFieldsJ s [] = s := by
  cases s <;> simp [appendFieldsJ]

/-- The strictifier leaves an inferred scalar schema unchanged. -/
theorem strictified_scalar_shape (o : Json) (h : isNonNullObject o = false) :
    SchemaStrictifier.enforceNoAdditionalProperties (inferSchema o) = inferSchema o := by
  cases o <;>
    simp_all [inferSchema, SchemaStrictifier.enforceNoAdditionalProperties,
      SchemaStrictifier.enforceFields, typeIsObject, getFieldList, List.find?,
      isNonNullObject]

/-- Shape of the strictified schema inferred from an object payload. -/
theorem strictified_obj_shape (fs : List (String × Json)) :
    SchemaStrictifier.enforceNoAdditionalProperties (inferSchema (.obj fs)) =
      Json.obj [("type", .str "object"),
        ("properties", .obj (fs.map (fun q =>
          (q.1, SchemaStrictifier.enforceNoAdditionalProperties (inferSchema q.2))))),
        ("additionalProperties", .bool false)] := by
  rw [inferSchema, SchemaStrictifier.enforceNoAdditionalProperties, if_pos (by rfl)]
  rw [enforceFields_map]
  simp only [List.map_cons, List.map_nil]
  have h1 : SchemaStrictifier.enforceNoAdditionalProperties (.str "object") = .str "object" := by
    simp [SchemaStrictifier.enforceNoAdditionalProperties]
  have h2 : SchemaStrictifier.enforceNoAdditionalProperties (.obj (inferFields fs)) =
      .obj (fs.map (fun q =>
        (q.1, SchemaStrictifier.enforceNoAdditionalProperties (inferSchema q.2)))) := by
    rw [SchemaStrictifier.enforceNoAdditionalProperties,
      if_neg (by simp [typeIsObject_inferFields])]
    rw [enforceFields_map, inferFields_map, List.map_map]
    rfl
  rw [h1, h2]
  simp [setFieldList]

/-- Shape of the strictified schema inferred from an array payload. -/
theorem strictified_arr_shape (xs : List Json) :
    SchemaStrictifier.enforceNoAdditionalProperties (inferSchema (.arr xs)) =
      Json.obj [("type", .str "array"),
        ("items", .arr (xs.map (fun y =>
          SchemaStrictifier.enforceNoAdditionalProperties (inferSchema y))))] := by
  rw [inferSchema, SchemaStrictifier.enforceNoAdditionalProperties,
    if_neg (by simp [typeIsObject, getFieldList, List.find?])]
  rw [enforceFields_map]
  simp only [List.map_cons, List.map_nil]
  have h1 : SchemaStrictifier.enforceNoAdditionalProperties (.str "array") = .str "array" := by
    simp [SchemaStrictifier.enforceNoAdditionalProperties]
  have h2 : SchemaStrictifier.enforceNoAdditionalProperties (.arr (inferList xs)) =
      .arr (xs.map (fun y =>
        SchemaStrictifier.enforceNoAdditionalProperties (inferSchema y))) := by
    rw [SchemaStrictifier.enforceNoAdditionalProperties]
    rw [enforceList_map, inferList_map, List.map_map]
    rfl
  rw [h1, h2]

/-- The payload used as the inference sample validates against its own inferred
schema with or without strictification, and independently of extra schema fields
(such as the draft-07 tag) appended at the root, provided none of them is an
additionalProperties keyword. -/
theorem validate_infer_self :
    ∀ (N : Nat) (o : Json), sizeOf o < N → WFj o = true → ∀ (strict : Bool) (path : String)
      (extra : List (String × Json)),
      (∀ q ∈ extra, (q.1 == "additionalProperties") = false) →
      SchemaValidator.validate
        (appendFieldsJ
          (if strict then SchemaStrictifier.enforceNoAdditionalProperties (inferSchema o)
           else inferSchema o) extra) o path = [] := by
  intro N
  induction N with
  | zero =>
    intro o hsz
    exact absurd hsz (by omega)
  | succ N ih =>
    intro o hsz hwf strict path extra hextra
    cases o with
    | null =>
      have hsch : (if strict then
          SchemaStrictifier.enforceNoAdditionalProperties (inferSchema Json.null)
          else inferSchema Json.null) = Json.obj [("type", .str "null")] := by
        cases strict
        · simp [inferSchema]
        · simp [inferSchema, SchemaStrictifier.enforceNoAdditionalProperties,
            SchemaStrictifier.enforceFields, typeIsObject, getFieldList, List.find?]
      rw [hsch]
      rw [show appendFieldsJ (.obj [("type", .str "null")]) extra =
        .obj (("type", .str "null") :: extra) from rfl]
      simp [SchemaValidator.validate, getField, getFieldList, List.find?, schemaTypeName]
    | bool b =>
      have hsch : (if strict then
          SchemaStrictifier.enforceNoAdditionalProperties (inferSchema (Json.bool b))
          else inferSchema (Json.bool b)) = Json.obj [("type", .str "boolean")] := by
        cases strict
        · simp [inferSchema]
        · simp [inferSchema, SchemaStrictifier.enforceNoAdditionalProperties,
            SchemaStrictifier.enforceFields, typeIsObject, getFieldList, List.find?]
      rw [hsch]
      rw [show appendFieldsJ (.obj [("type", .str "boolean")]) extra =
        .obj (("type", .str "boolean") :: extra) from rfl]
      simp [SchemaValidator.validate, getField, getFieldList, List.find?, schemaTypeName]
    | num n =>
      have hsch : (if strict then
          SchemaStrictifier.enforceNoAdditionalProperties (inferSchema (Json.num n))
          else inferSchema (Json.num n)) = Json.obj [("type", .str "number")] := by
        cases strict
        · simp [inferSchema]
        · simp [inferSchema, SchemaStrictifier.enforceNoAdditionalProperties,
            SchemaStrictifier.enforceFields, typeIsObject, getFieldList, List.find?]
      rw [hsch]
      rw [show appendFieldsJ (.obj [("type", .str "number")]) extra =
        .obj (("type", .str "number") :: extra) from rfl]
      simp [SchemaValidator.validate, getField, getFieldList, List.find?, schemaTypeName]
    | str s =>
      have hsch : (if strict then
          SchemaStrictifier.enforceNoAdditionalProperties (inferSchema (Json.str s))
          else inferSchema (Json.str s)) = Json.obj [("type", .str "string")] := by
        cases strict
        · simp [inferSchema]
        · simp [inferSchema, SchemaStrictifier.enforceNoAdditionalProperties,
            SchemaStrictifier.enforceFields, typeIsObject, getFieldList, List.find?]
      rw [hsch]
      rw [show appendFieldsJ (.obj [("type", .str "string")]) extra =
        .obj (("type", .str "string") :: extra) from rfl]
      simp [SchemaValidator.validate, getField, getFieldList, List.find?, schemaTypeName]
    | obj fs =>
      rw [WFj, Bool.and_eq_true] at hwf
      have hnd : (fs.map Prod.fst).Nodup := of_decide_eq_true hwf.1
      have hwfmem := WFfields_mem hwf.2
      have hget : ∀ q ∈ fs, jsGetK (Json.obj fs) (.field q.1) = some q.2 := by
        intro q hq
        simp only [jsGetK, keyStr]
        rw [find?_key_eq_of_nodup fs q hnd hq]
        rfl
      have hsize : ∀ q ∈ fs, sizeOf q.2 < N := by
        intro q hq
        have h1 := sizeOf_lt_of_jsGetK (hget q hq)
        omega
      have hprops : ∀ (G : Json → Json),
          (∀ q ∈ fs, ∀ path2, SchemaValidator.validate (G q.2) q.2 path2 = []) →
          ∀ l2 : List (String × Json), (∀ q ∈ l2, q ∈ fs) →
          SchemaValidator.validateProps (l2.map (fun q => (q.1, G q.2)))
            (Json.obj fs) path = [] := by
        intro G hG l2
        induction l2 with
        | nil =>
          intro _
          simp only [List.map_nil]
          exact validateProps_nil _ _
        | cons q rest ihl =>
          intro hsub
          obtain ⟨k, v⟩ := q
          have hqmem := hsub _ (List.mem_cons_self _ _)
          simp only [List.map_cons]
          rw [validateProps_cons_of_get (hget _ hqmem)]
          rw [hG _ hqmem]
          simp [ihl (fun q hq => hsub q (List.mem_cons_of_mem _ hq))]
      have hGall : ∀ q ∈ fs, ∀ path2, SchemaValidator.validate
          (if strict then SchemaStrictifier.enforceNoAdditionalProperties (inferSchema q.2)
           else inferSchema q.2) q.2 path2 = [] := by
        intro q hq path2
        have := ih q.2 (hsize q hq) (hwfmem q hq) strict path2 [] (by intro q2 hq2; cases hq2)
        simpa [appendFieldsJ_nil] using this
      cases strict with
      | true =>
        rw [if_pos rfl, strictified_obj_shape fs]
        rw [show appendFieldsJ (Json.obj
            [("type", .str "object"),
             ("properties", .obj (fs.map (fun q =>
               (q.1, SchemaStrictifier.enforceNoAdditionalProperties (inferSchema q.2))))),
             ("additionalProperties", .bool false)]) extra =
          Json.obj (("type", .str "object") ::
            ("properties", .obj (fs.map (fun q =>
              (q.1, SchemaStrictifier.enforceNoAdditionalProperties (inferSchema q.2))))) ::
            ("additionalProperties", .bool false) :: extra) from rfl]
        have hfilter : ∀ d ∈ fs,
            ((fs.map (fun q =>
              (q.1, SchemaStrictifier.enforceNoAdditionalProperties (inferSchema q.2)))).any
                (fun q => q.1 == d.1)) = true := by
          intro d hd
          exact List.any_eq_true.mpr ⟨(d.1,
            SchemaStrictifier.enforceNoAdditionalProperties (inferSchema d.2)),
            List.mem_map.mpr ⟨d, hd, rfl⟩, by simp⟩
        have hpr := hprops
          (fun v => SchemaStrictifier.enforceNoAdditionalProperties (inferSchema v))
          (fun q hq path2 => by simpa using hGall q hq path2) fs (fun q hq => hq)
        simp [SchemaValidator.validate, getField, getFieldList, List.find?, hpr,
          List.filter_eq_nil_iff, hfilter]
        exact fun a b h => ⟨b, h⟩
      | false =>
        rw [if_neg (by simp)]
        rw [inferSchema]
        rw [show appendFieldsJ (Json.obj
            [("type", .str "object"), ("properties", .obj (inferFields fs))]) extra =
          Json.obj (("type", .str "object") ::
            ("properties", .obj (inferFields fs)) :: extra) from rfl]
        have hextr : extra.find? (fun q => q.1 == "additionalProperties") = none :=
          List.find?_eq_none.mpr (fun q hq => by simp [hextra q hq])
        have hpr := hprops inferSchema
          (fun q hq path2 => by simpa using hGall q hq path2) fs (fun q hq => hq)
        rw [inferFields_map]
        simp [SchemaValidator.validate, getField, getFieldList, List.find?, hpr, hextr]
    | arr xs =>
      rw [WFj] at hwf
      have hwfmem := WFitems_mem hwf
      have hsize : ∀ y ∈ xs, sizeOf y < N := by
        intro y hy
        have h1 := List.sizeOf_lt_of_mem hy
        simp only [Json.arr.sizeOf_spec] at hsz
        omega
      have htuple : ∀ (G : Json → Json),
          (∀ y ∈ xs, ∀ path2, SchemaValidator.validate (G y) y path2 = []) →
          ∀ (l2 : List Json), (∀ y ∈ l2, y ∈ xs) → ∀ (i0 : Nat),
          SchemaValidator.validateTuple (l2.map G) l2 i0 path = [] := by
        intro G hG l2
        induction l2 with
        | nil =>
          intro _ i0
          simp only [List.map_nil]
          rw [SchemaValidator.validateTuple]
          intro sub subs dv dvs h1 h2
          cases h1
        | cons y rest ihl =>
          intro hsub i0
          simp only [List.map_cons]
          rw [SchemaValidator.validateTuple]
          rw [hG y (hsub y (List.mem_cons_self _ _))]
          simp [ihl (fun y2 hy2 => hsub y2 (List.mem_cons_of_mem _ hy2)) (i0 + 1)]
      have hGall : ∀ y ∈ xs, ∀ path2, SchemaValidator.validate
          (if strict then SchemaStrictifier.enforceNoAdditionalProperties (inferSchema y)
           else inferSchema y) y path2 = [] := by
        intro y hy path2
        have := ih y (hsize y hy) (hwfmem y hy) strict path2 [] (by intro q2 hq2; cases hq2)
        simpa [appendFieldsJ_nil] using this
      cases strict with
      | true =>
        rw [if_pos rfl, strictified_arr_shape xs]
        rw [show appendFieldsJ (Json.obj
            [("type", .str "array"),
             ("items", .arr (xs.map (fun y =>
               SchemaStrictifier.enforceNoAdditionalProperties (inferSchema y))))]) extra =
          Json.obj (("type", .str "array") ::
            ("items", .arr (xs.map (fun y =>
              SchemaStrictifier.enforceNoAdditionalProperties (inferSchema y)))) ::
            extra) from rfl]
        have htp := htuple
          (fun y => SchemaStrictifier.enforceNoAdditionalProperties (inferSchema y))
          (fun y hy path2 => by simpa using hGall y hy path2) xs (fun y hy => hy) 0
        simp [SchemaValidator.validate, getField, getFieldList, List.find?, htp]
      | false =>
        rw [if_neg (by simp)]
        rw [inferSchema]
        rw [show appendFieldsJ (Json.obj
            [("type", .str "array"), ("items", .arr (inferList xs))]) extra =
          Json.obj (("type", .str "array") ::
            ("items", .arr (inferList xs)) :: extra) from rfl]
        have htp := htuple inferSchema
          (fun y hy path2 => by simpa using hGall y hy path2) xs (fun y hy => hy) 0
        rw [inferList_map]
        simp [SchemaValidator.validate, getField, getFieldList, List.find?, htp]

/-- Writing the draft-07 tag on a freshly inferred (and possibly strictified)
schema appends it as a new trailing field: no schema root produced by the
inference pipeline already carries a dollar-schema key. -/
theorem setField_dollar_as_append (j : Json) (strict : Bool) (v : Json) :
    setField (if strict then SchemaStrictifier.enforceNoAdditionalProperties (inferSchema j)
      else inferSchema j) "$schema" v =
    appendFieldsJ (if strict then SchemaStrictifier.enforceNoAdditionalProperties (inferSchema j)
      else inferSchema j) [("$schema", v)] := by
  cases strict with
  | false =>
    cases j <;> simp [inferSchema, setField, setFieldList, appendFieldsJ]
  | true =>
    cases j with
    | obj fs => rw [strictified_obj_shape]; simp [setField, setFieldList, appendFieldsJ]
    | arr xs => rw [strictified_arr_shape]; simp [setField, setFieldList, appendFieldsJ]
    | null =>
      rw [strictified_scalar_shape Json.null rfl]
      simp [inferSchema, setField, setFieldList, appendFieldsJ]
    | bool b =>
      rw [strictified_scalar_shape (Json.bool b) rfl]
      simp [inferSchema, setField, setFieldList, appendFieldsJ]
    | num n =>
      rw [strictified_scalar_shape (Json.num n) rfl]
      simp [inferSchema, setField, setFieldList, appendFieldsJ]
    | str s =>
      rw [strictified_scalar_shape (Json.str s) rfl]
      simp [inferSchema, setField, setFieldList, appendFieldsJ]

/-- C7 (amended): comparing a folder against itself yields a matched result for
every file, for every strictness configuration, provided every listed json file
holds a non-Empty, well-formed object or array payload — the structural diff of
equal data is empty and the schema inferred from a payload validates that same
payload. (The unrestricted claim fails on Empty and on scalar payloads; see the
counterexample.) -/
theorem folder_self_compare (opts : PayloadComparer.ComparerOptions)
    (oldF : List (String × Option Json))
    (hpayload : ∀ q ∈ oldF, strEndsWith q.1 ".json" = true →
      ∃ j, q.2 = some j ∧ WFj j = true ∧ isNonNullObject j = true)
    (hnames : (oldF.map Prod.fst).Nodup) :
    ∀ r ∈ (PayloadComparer.compareFolders opts oldF oldF).1, r.matched = true := by
  intro r hr
  simp only [PayloadComparer.compareFolders] at hr
  obtain ⟨q, hq, rfl⟩ := List.mem_map.mp hr
  have hqf := List.mem_filter.mp hq
  obtain ⟨j, hj, hwf, hnno⟩ := hpayload q hqf.1 hqf.2
  have hlk : PayloadComparer.lookupFile oldF q.1 = some q.2 := by
    simp only [PayloadComparer.lookupFile]
    rw [find?_key_eq_of_nodup oldF q hnames hqf.1]
    rfl
  rw [hlk, hj]
  show (PayloadComparer.compareLoaded opts q.1 j j).matched = true
  have hcmp : BasicComparator.compare opts.strictValues j j "" = [] :=
    compare_self_nil opts.strictValues (sizeOf j + 1) j (by omega) hwf hnno ""
  have hvalfinal : SchemaValidator.validate
      (setField (if opts.strictSchema then
          SchemaStrictifier.enforceNoAdditionalProperties (inferSchema j)
        else inferSchema j) "$schema" (.str "http://json-schema.org/draft-07/schema#"))
      j "" = [] := by
    rw [setField_dollar_as_append]
    refine validate_infer_self (sizeOf j + 1) j (by omega) hwf opts.strictSchema "" _ ?_
    intro q2 hq2
    rw [List.mem_singleton.mp hq2]
    decide
  simp [PayloadComparer.compareLoaded, hcmp, hvalfinal, SchemaValidator.getErrors]

/-- C7 counterexample: as stated, the idempotence claim fails on the code. A
folder whose json file holds a scalar payload compares unequal to itself (the
old-data guard fires at the root), and a folder whose file is the Empty sentinel
compares unequal to itself when empty responses are not tolerated. -/
theorem folder_self_compare_counterexample :
    ((PayloadComparer.compareFolders ⟨true, true, true⟩
        [("a.json", some (Json.num 5))] [("a.json", some (Json.num 5))]).1.map
      (fun r => r.matched)) = [false] ∧
    ((PayloadComparer.compareFolders ⟨true, true, false⟩
        [("b.json", none)] [("b.json", none)]).1.map
      (fun r => r.matched)) = [false] := by
  constructor
  · have hmsgeq : BasicComparator.oldNotObjectMsg (Json.num 5) "" =
        "X Old data is not a valid object at #. Got: 5" := by
      simp [BasicComparator.oldNotObjectMsg, BasicComparator.formatPath, jsonStringify]
      rfl
    have hmsg : strStartsWith "X Old data is not a valid object at #. Got: 5"
        "IGNORED::" = false := by decide
    simp [PayloadComparer.compareFolders, PayloadComparer.compareFile,
      PayloadComparer.lookupFile, PayloadComparer.compareLoaded, BasicComparator.compare,
      strEndsWith, List.isSuffixOf, List.find?, hmsgeq, hmsg]
  · simp [PayloadComparer.compareFolders, PayloadComparer.compareFile,
      PayloadComparer.lookupFile, strEndsWith, List.isSuffixOf, List.find?]

/-- Closed instance discharging the hypotheses of the amended C7 theorem on a
concrete one-file folder. -/
theorem folder_self_compare_witness :
    (∀ q ∈ [(("a.json" : String), some (Json.obj [("a", Json.num 1)]))],
      strEndsWith q.1 ".json" = true →
      ∃ j, q.2 = some j ∧ WFj j = true ∧ isNonNullObject j = true) ∧
    ∀ r ∈ (PayloadComparer.compareFolders ⟨true, true, false⟩
        [("a.json", some (Json.obj [("a", Json.num 1)]))]
        [("a.json", some (Json.obj [("a", Json.num 1)]))]).1, r.matched = true := by
  have hpayload : ∀ q ∈ [(("a.json" : String), some (Json.obj [("a", Json.num 1)]))],
      strEndsWith q.1 ".json" = true →
      ∃ j, q.2 = some j ∧ WFj j = true ∧ isNonNullObject j = true := by
    intro q hq hjson
    rw [List.mem_singleton.mp hq]
    exact ⟨Json.obj [("a", Json.num 1)], rfl, by simp [WFj, WFfields], rfl⟩
  exact ⟨hpayload, folder_self_compare ⟨true, true, false⟩ _ hpayload (by simp)⟩
